import Mathlib

/-!
Shallow embedding of the market-dashboard frontend logic:
the indicator engine (RSI / EMA / MACD) from
`src/frontend/src/components/RealTimeStats.tsx`, the viewport (visible price
range) controller from the chart component (`src/unnamed/part_001`), the
series-color signal from `src/frontend/src/components/StockChart.tsx`, the
tick-history handler from the app component (`src/unnamed/part_000`), and the
previous-close extraction of the advanced-stats panel (`src/unnamed/part_002`).

JavaScript numbers are modelled as exact rationals (`ℚ`); the `null` results
of the indicator functions are modelled as `Option.none`.
-/

namespace MarketDashboard

/-- A streamed tick as consumed by the tick handlers: a unix timestamp and a
closing price (the other fields of the payload play no role in the claims). -/
structure Tick where
  time : ℤ
  close : ℚ
deriving DecidableEq

/-! ## Indicator engine (RealTimeStats.tsx) -/

/-- One iteration of the gains/losses loop of `calculateRSI`
(RealTimeStats.tsx lines 21-23): `if (diff > 0) gains += diff; else
losses -= diff;`, acting on the accumulator pair `(gains, losses)`. -/
def rsiStep (gl : ℚ × ℚ) (diff : ℚ) : ℚ × ℚ :=
  if diff > 0 then (gl.1 + diff, gl.2) else (gl.1, gl.2 - diff)

/-- Embeds `calculateRSI` (RealTimeStats.tsx lines 16-30).  The JS loop
`for (let i = closes.length - period; i < closes.length; i++)` is rendered as a
fold over `List.range period` with `i = closes.length - period + j`; the array
accesses `closes[i]`, `closes[i-1]` (always in bounds in the taken branch,
since `closes.length ≥ period + 1`) become `getD _ 0`. -/
def calculateRSI (closes : List ℚ) (period : ℕ := 14) : Option ℚ :=
  if closes.length < period + 1 then none
  else
    let gl := (List.range period).foldl
      (fun gl j =>
        let i := closes.length - period + j
        rsiStep gl (closes.getD i 0 - closes.getD (i - 1) 0)) (0, 0)
    let avgGain := gl.1 / (period : ℚ)
    let avgLoss := gl.2 / (period : ℚ)
    if avgLoss = 0 then some 100
    else some (100 - 100 / (1 + avgGain / avgLoss))

/-- Embeds `calculateEMA` (RealTimeStats.tsx lines 32-40): guard
`values.length < period`, seed `ema = values[0]`, then
`ema = values[i]*k + ema*(1-k)` for `i = 1 .. values.length - 1`, with
`k = 2/(period+1)`.  The seed `values[0]` is `headD 0`; at every call site
`period ≥ 1`, so in the taken branch the list is nonempty and the default is
never used. -/
def calculateEMA (values : List ℚ) (period : ℕ) : Option ℚ :=
  if values.length < period then none
  else
    let k : ℚ := 2 / ((period : ℚ) + 1)
    some (values.tail.foldl (fun ema v => v * k + ema * (1 - k)) (values.headD 0))

/-- Embeds `calculateMACD` (RealTimeStats.tsx lines 42-47): `null` when either
EMA is `null`, otherwise `fast - slow`. -/
def calculateMACD (closes : List ℚ) : Option ℚ :=
  match calculateEMA closes 12, calculateEMA closes 26 with
  | some fast, some slow => some (fast - slow)
  | _, _ => none

/-- Spec-side reading (for the refinement claim about RSI): the last `period`
consecutive differences `closes[i] - closes[i-1]`, i.e. the pairwise
differences of the final `period + 1` closes. -/
def lastDiffs (closes : List ℚ) (period : ℕ) : List ℚ :=
  let window := closes.drop (closes.length - (period + 1))
  List.zipWith (fun a b => b - a) window window.tail

/-- Spec-side reading of RSI, following the claim's words: unavailable below
`period + 1` closes; otherwise positive differences are summed into `gains`,
absolute values of negative differences into `losses`, the averages divide by
`period`, the result is exactly 100 when `avgLoss = 0` and
`100 - 100/(1 + avgGain/avgLoss)` otherwise. -/
def rsiSpec (closes : List ℚ) (period : ℕ) : Option ℚ :=
  if closes.length < period + 1 then none
  else
    let d := lastDiffs closes period
    let gains := (d.filter (fun x => decide (0 < x))).sum
    let losses := ((d.filter (fun x => decide (x < 0))).map (fun x => |x|)).sum
    let avgGain := gains / (period : ℚ)
    let avgLoss := losses / (period : ℚ)
    if avgLoss = 0 then some 100
    else some (100 - 100 / (1 + avgGain / avgLoss))

/-! ## Viewport controller (chart component, src/unnamed/part_001) -/

/-- The chart's visible vertical price range, `{ from, to }` in the source
(`from` is a reserved word in Lean, hence `vFrom`/`vTo`). -/
structure VisibleRange where
  vFrom : ℚ
  vTo : ℚ
deriving DecidableEq

/-- The state touched by the `ws.onmessage` handler of the chart component:
the pushed buffer of close prices, the `hasSetInitialRange` flag, and the
price scale's current visible range (`none` before any range was set). -/
structure ViewportState where
  buffer : List ℚ
  hasSetInitialRange : Bool
  range : Option VisibleRange
deriving DecidableEq

/-- Session start: empty buffer, `hasSetInitialRange = false`, no range set. -/
def initViewport : ViewportState := ⟨[], false, none⟩

/-- `const rangePercent = 0.02` (part_001 line 94). -/
def rangePercent : ℚ := 2 / 100

/-- `const bufferPercent = 0.15` (part_001 line 106). -/
def bufferPercent : ℚ := 15 / 100

/-- Embeds the range logic of `ws.onmessage` (part_001 lines 83-118): the
point is pushed first; then, if `!hasSetInitialRange && buffer.length === 1`,
the initial range `[p*(1-0.02), p*(1+0.02)]` is set and the flag raised;
otherwise, if the flag is set and a current range exists, the price is tested
against the top/bottom 15% buffer zones and on a hit the range is re-centered
on the price with size multiplied by 1.5. -/
def viewportStep (s : ViewportState) (price : ℚ) : ViewportState :=
  let buffer := s.buffer ++ [price]
  if s.hasSetInitialRange = false ∧ buffer.length = 1 then
    { buffer := buffer, hasSetInitialRange := true,
      range := some ⟨price * (1 - rangePercent), price * (1 + rangePercent)⟩ }
  else if s.hasSetInitialRange then
    match s.range with
    | some currentRange =>
      let rangeSize := currentRange.vTo - currentRange.vFrom
      let nearTop := price > currentRange.vTo - rangeSize * bufferPercent
      let nearBottom := price < currentRange.vFrom + rangeSize * bufferPercent
      if nearTop ∨ nearBottom then
        let newRangeSize := rangeSize * (3 / 2)
        { buffer := buffer, hasSetInitialRange := s.hasSetInitialRange,
          range := some ⟨price - newRangeSize / 2, price + newRangeSize / 2⟩ }
      else
        { buffer := buffer, hasSetInitialRange := s.hasSetInitialRange, range := s.range }
    | none =>
      { buffer := buffer, hasSetInitialRange := s.hasSetInitialRange, range := s.range }
  else
    { buffer := buffer, hasSetInitialRange := s.hasSetInitialRange, range := s.range }

/-! ## Series-color signal (StockChart.tsx) -/

/-- The "up" color `#00AA76` (green) of StockChart.tsx line 107. -/
def upColor : String := "#00AA76"

/-- The "down" color `#D60A22` (red) of StockChart.tsx line 107. -/
def downColor : String := "#D60A22"

/-- The color the line series is created with (StockChart.tsx line 60);
this is the default the series keeps while no color update is applied. -/
def initialSeriesColor : String := "#D60A22"

/-- Embeds the color update of `ws.onmessage` (StockChart.tsx lines 106-109):
when `prevCloseRef.current !== null`, the series color is set to
`close >= prevClose ? "#00AA76" : "#D60A22"`; otherwise no `applyOptions`
call happens and the current color is kept. -/
def colorStep (prevClose : Option ℚ) (color : String) (close : ℚ) : String :=
  match prevClose with
  | some pc => if close ≥ pc then upColor else downColor
  | none => color

/-- The series color after a sequence of ticks with a fixed previous-close
reference, starting from the creation color. -/
def runColorSignal (prevClose : Option ℚ) (closes : List ℚ) : String :=
  closes.foldl (colorStep prevClose) initialSeriesColor

/-! ## Tick history (app component, src/unnamed/part_000) -/

/-- Embeds `handleNewTick` (part_000 lines 23-25):
`setTicks(prev => [...prev, tick])`. -/
def handleNewTick (prev : List Tick) (tick : Tick) : List Tick :=
  prev ++ [tick]

/-- The spec's ordering invariant on the stored tick sequence: strictly
increasing `time` between consecutive entries. -/
def strictlyTimeOrdered (ticks : List Tick) : Prop :=
  List.Chain' (fun a b => a.time < b.time) ticks

/-! ## Advanced-stats panel (src/unnamed/part_002) -/

/-- The slice of the advanced-stats payload the claims are about: the
`previousClose` field, `none` when absent (or `null`) in the JSON object. -/
structure AdvancedStats where
  previousClose : Option ℚ
deriving DecidableEq

/-- Embeds `Number(data.stats.previousClose ?? 0)` (part_002 line 89): the
nullish-coalescing default turns an absent field into the number `0`. -/
def panelPrevClose (stats : AdvancedStats) : ℚ :=
  stats.previousClose.getD 0

/-- Embeds the fetch callback of `AdvancedStatsPanel` (part_002 lines 86-92)
as it acts on the app's `prevClose` state: when the payload has a `stats`
object, `onPrevClose` is called with `panelPrevClose`; otherwise only an
error is logged and the state is untouched. -/
def statsPanelStep (payload : Option AdvancedStats) (prevClose : Option ℚ) : Option ℚ :=
  match payload with
  | some stats => some (panelPrevClose stats)
  | none => prevClose

/-! ## Helper lemmas -/

/-- Folding the EMA recurrence over a constant list leaves the accumulator
unchanged: `v*k + v*(1-k) = v`. -/
lemma foldl_ema_replicate (v k : ℚ) (n : ℕ) :
    (List.replicate n v).foldl (fun ema w => w * k + ema * (1 - k)) v = v := by
  induction n with
  | zero => rfl
  | succ n ih =>
    rw [List.replicate_succ, List.foldl_cons]
    have hv : v * k + v * (1 - k) = v := by ring
    rw [hv, ih]

/-- With no previous-close reference, `colorStep` keeps whatever color the
series currently has, so folding it changes nothing. -/
lemma foldl_colorStep_none (closes : List ℚ) (c : String) :
    closes.foldl (colorStep none) c = c := by
  induction closes generalizing c with
  | nil => rfl
  | cons x xs ih => rw [List.foldl_cons]; exact ih c

/-! ## Claims about the indicator engine -/

/-- Claim C2: `calculateEMA` returns `none` when the input is shorter than
`period`; otherwise it is the fold seeded with the first element of the whole
input that applies `ema := v*k + ema*(1-k)`, `k = 2/(period+1)`, to every
value from index 1 to the end of the entire sequence. -/
theorem calculateEMA_spec (values : List ℚ) (period : ℕ) :
    (values.length < period → calculateEMA values period = none) ∧
    (∀ v vs, values = v :: vs → period ≤ values.length →
      calculateEMA values period =
        some (vs.foldl
          (fun ema w => w * (2 / ((period : ℚ) + 1)) + ema * (1 - 2 / ((period : ℚ) + 1)))
          v)) := by
  constructor
  · intro h
    rw [calculateEMA, if_pos h]
  · rintro v vs rfl h
    rw [calculateEMA, if_neg (by omega)]
    rfl

/-- Witness for C2 at `values = [3, 4]`, `period = 2`. -/
theorem calculateEMA_spec_witness :
    calculateEMA [(3 : ℚ), 4] 2 =
      some ([(4 : ℚ)].foldl
        (fun ema w => w * (2 / (((2 : ℕ) : ℚ) + 1)) + ema * (1 - 2 / (((2 : ℕ) : ℚ) + 1)))
        3) :=
  (calculateEMA_spec [3, 4] 2).2 3 [4] rfl (by norm_num)

/-- Claim C3: `calculateMACD` is `none` when either the 12-period or the
26-period EMA is `none`, and is their difference `fast - slow` otherwise. -/
theorem calculateMACD_spec (closes : List ℚ) :
    ((calculateEMA closes 12 = none ∨ calculateEMA closes 26 = none) →
      calculateMACD closes = none) ∧
    (∀ fast slow, calculateEMA closes 12 = some fast →
      calculateEMA closes 26 = some slow →
      calculateMACD closes = some (fast - slow)) := by
  constructor
  · rintro (h | h) <;>
      cases h12 : calculateEMA closes 12 <;>
      cases h26 : calculateEMA closes 26 <;>
      simp_all [calculateMACD]
  · intro fast slow h12 h26
    rw [calculateMACD, h12, h26]

/-- Witness for C3 at `closes = []` (both EMAs unavailable). -/
theorem calculateMACD_spec_witness : calculateMACD [] = none :=
  (calculateMACD_spec []).1 (Or.inl (by norm_num [calculateEMA]))

/-- Claim C7: the EMA of a constant sequence of value `v` with length at least
`period` is `v`, and consequently the MACD of a constant sequence of length at
least 26 is `0`. -/
theorem ema_macd_const_spec :
    (∀ (v : ℚ) (m period : ℕ), 0 < m → period ≤ m →
      calculateEMA (List.replicate m v) period = some v) ∧
    (∀ (v : ℚ) (m : ℕ), 26 ≤ m → calculateMACD (List.replicate m v) = some 0) := by
  have hema : ∀ (v : ℚ) (m period : ℕ), 0 < m → period ≤ m →
      calculateEMA (List.replicate m v) period = some v := by
    intro v m period hm hpm
    rw [calculateEMA, if_neg (by simp; omega)]
    obtain ⟨n, rfl⟩ := Nat.exists_eq_succ_of_ne_zero (Nat.pos_iff_ne_zero.mp hm)
    rw [List.replicate_succ]
    simp only [List.headD_cons, List.tail_cons]
    rw [foldl_ema_replicate]
  refine ⟨hema, fun v m hm => ?_⟩
  rw [calculateMACD, hema v m 12 (by omega) (by omega), hema v m 26 (by omega) hm]
  simp

/-- Witness for C7 at `v = 5`, `m = 26`. -/
theorem ema_macd_const_witness :
    calculateMACD (List.replicate 26 (5 : ℚ)) = some 0 :=
  ema_macd_const_spec.2 5 26 (by norm_num)

/-- Folding the gains/losses loop along a list of differences adds the sum of
the positive differences to the first component and the sum of the absolute
values of the negative differences to the second. -/
lemma foldl_rsiStep_eq (d : List ℚ) (g l : ℚ) :
    d.foldl rsiStep (g, l) =
      (g + (d.filter (fun x => decide (0 < x))).sum,
       l + ((d.filter (fun x => decide (x < 0))).map (fun x => |x|)).sum) := by
  induction d generalizing g l with
  | nil => simp
  | cons x d ih =>
    rw [List.foldl_cons]
    by_cases hx : x > 0
    · rw [rsiStep, if_pos hx, ih]
      have h2 : ¬ x < 0 := by linarith
      simp [List.filter_cons, hx, h2, Prod.ext_iff]
      ring
    · rw [rsiStep, if_neg hx, ih]
      push_neg at hx
      rcases eq_or_lt_of_le hx with h0 | hlt
      · subst h0
        simp
      · have h1 : ¬ 0 < x := by linarith
        simp [List.filter_cons, h1, hlt, abs_of_neg hlt, Prod.ext_iff]
        ring

/-- In the available branch, the spec's difference window is exactly the list
of indexed differences the source loop walks over. -/
lemma lastDiffs_eq_map_range (closes : List ℚ) (period : ℕ)
    (h : period + 1 ≤ closes.length) :
    lastDiffs closes period =
      (List.range period).map (fun j =>
        closes.getD (closes.length - period + j) 0 -
        closes.getD (closes.length - period + j - 1) 0) := by
  have hw : (closes.drop (closes.length - (period + 1))).length = period + 1 := by
    rw [List.length_drop]
    omega
  apply List.ext_getElem
  · simp only [lastDiffs, List.length_zipWith, List.length_tail, hw, List.length_map,
      List.length_range]
    omega
  · intro j hj1 hj2
    have hjp : j < period := by
      simpa only [List.length_map, List.length_range] using hj2
    simp only [lastDiffs, List.getElem_map, List.getElem_range, List.getElem_zipWith,
      List.getElem_tail, List.getElem_drop]
    have e1 : closes.length - period + j = closes.length - (period + 1) + (j + 1) := by
      omega
    have e2 : closes.length - period + j - 1 = closes.length - (period + 1) + j := by
      omega
    rw [e2, e1]
    rw [List.getD_eq_getElem closes 0 (by omega), List.getD_eq_getElem closes 0 (by omega)]

/-- Claim C1: `calculateRSI` returns `none` below `period + 1` closes, and
otherwise computes, over the last `period` consecutive differences, the
average gain and average loss and the value `100` when `avgLoss = 0` or
`100 - 100/(1 + avgGain/avgLoss)` otherwise — i.e. it coincides with the
spec-side `rsiSpec` on every input. -/
theorem calculateRSI_spec (closes : List ℚ) (period : ℕ) :
    calculateRSI closes period = rsiSpec closes period := by
  by_cases h : closes.length < period + 1
  · rw [calculateRSI, if_pos h, rsiSpec, if_pos h]
  · push_neg at h
    have hfold : (List.range period).foldl
        (fun gl j => rsiStep gl (closes.getD (closes.length - period + j) 0 -
          closes.getD (closes.length - period + j - 1) 0)) (0, 0) =
        (lastDiffs closes period).foldl rsiStep (0, 0) := by
      rw [lastDiffs_eq_map_range closes period h, List.foldl_map]
    have hn : ¬ (closes.length < period + 1) := by omega
    rw [calculateRSI, if_neg hn, rsiSpec, if_neg hn]
    simp only [hfold, foldl_rsiStep_eq, zero_add]

/-- One step of the gains/losses loop keeps both accumulators nonnegative. -/
lemma rsiStep_nonneg (gl : ℚ × ℚ) (d : ℚ) (h1 : 0 ≤ gl.1) (h2 : 0 ≤ gl.2) :
    0 ≤ (rsiStep gl d).1 ∧ 0 ≤ (rsiStep gl d).2 := by
  by_cases hd : d > 0
  · simp only [rsiStep, if_pos hd]
    exact ⟨by linarith, h2⟩
  · simp only [rsiStep, if_neg hd]
    push_neg at hd
    exact ⟨h1, by linarith⟩

/-- The whole gains/losses fold keeps both accumulators nonnegative. -/
lemma foldl_rsiStep_nonneg {α : Type} (xs : List α) (f : α → ℚ) (init : ℚ × ℚ)
    (h1 : 0 ≤ init.1) (h2 : 0 ≤ init.2) :
    0 ≤ (xs.foldl (fun gl a => rsiStep gl (f a)) init).1 ∧
    0 ≤ (xs.foldl (fun gl a => rsiStep gl (f a)) init).2 := by
  induction xs generalizing init with
  | nil => exact ⟨h1, h2⟩
  | cons x xs ih =>
    rw [List.foldl_cons]
    obtain ⟨a, b⟩ := rsiStep_nonneg init (f x) h1 h2
    exact ih (rsiStep init (f x)) a b

/-- Claim C6: whenever `calculateRSI` returns a value, that value lies in
`[0, 100]`. -/
theorem calculateRSI_bounded (closes : List ℚ) (period : ℕ) (x : ℚ)
    (h : calculateRSI closes period = some x) : 0 ≤ x ∧ x ≤ 100 := by
  by_cases hlen : closes.length < period + 1
  · rw [calculateRSI, if_pos hlen] at h
    cases h
  · rw [calculateRSI, if_neg hlen] at h
    obtain ⟨hg, hl⟩ := foldl_rsiStep_nonneg (List.range period)
      (fun j => closes.getD (closes.length - period + j) 0 -
        closes.getD (closes.length - period + j - 1) 0) (0, 0) le_rfl le_rfl
    dsimp only at h
    split_ifs at h with h0
    · obtain rfl : (100 : ℚ) = x := Option.some.inj h
      norm_num
    · obtain rfl := (Option.some.inj h).symm
      have hper : (0 : ℚ) ≤ (period : ℚ) := Nat.cast_nonneg period
      have havgG : 0 ≤ ((List.range period).foldl
          (fun gl a => rsiStep gl (closes.getD (closes.length - period + a) 0 -
            closes.getD (closes.length - period + a - 1) 0)) (0, 0)).1 / (period : ℚ) :=
        div_nonneg hg hper
      have havgL : 0 ≤ ((List.range period).foldl
          (fun gl a => rsiStep gl (closes.getD (closes.length - period + a) 0 -
            closes.getD (closes.length - period + a - 1) 0)) (0, 0)).2 / (period : ℚ) :=
        div_nonneg hl hper
      set avgGain := ((List.range period).foldl
        (fun gl a => rsiStep gl (closes.getD (closes.length - period + a) 0 -
          closes.getD (closes.length - period + a - 1) 0)) (0, 0)).1 / (period : ℚ)
      set avgLoss := ((List.range period).foldl
        (fun gl a => rsiStep gl (closes.getD (closes.length - period + a) 0 -
          closes.getD (closes.length - period + a - 1) 0)) (0, 0)).2 / (period : ℚ)
      have hrs : 0 ≤ avgGain / avgLoss := div_nonneg havgG havgL
      have h1p : (0 : ℚ) < 1 + avgGain / avgLoss := by linarith
      have hle : 100 / (1 + avgGain / avgLoss) ≤ 100 :=
        div_le_self (by norm_num) (by linarith)
      have hgt : 0 < 100 / (1 + avgGain / avgLoss) := by positivity
      constructor <;> linarith

/-- Witness for C6 at a constant 15-close history (RSI exactly 100, in
bounds). -/
theorem calculateRSI_bounded_witness :
    calculateRSI [1, 1, 1, 1, 1, 1, 1, 1, 1, 1, 1, 1, 1, 1, 1] 14 = some 100 ∧
    (0 : ℚ) ≤ 100 ∧ (100 : ℚ) ≤ 100 := by
  have hrsi : calculateRSI [1, 1, 1, 1, 1, 1, 1, 1, 1, 1, 1, 1, 1, 1, 1] 14 = some 100 := by
    simp [calculateRSI, rsiStep, List.range_succ, List.getD]
  obtain ⟨a, b⟩ := calculateRSI_bounded _ 14 100 hrsi
  exact ⟨hrsi, a, b⟩

/-! ## Claims about the viewport controller -/

/-- Unfolding `viewportStep` at session start: the first price sets the
initial ±2% band and raises the flag. -/
lemma viewportStep_first (rng : Option VisibleRange) (p : ℚ) :
    viewportStep ⟨[], false, rng⟩ p =
      ⟨[p], true, some ⟨p * (1 - rangePercent), p * (1 + rangePercent)⟩⟩ := by
  rw [viewportStep]
  simp

/-- Unfolding `viewportStep` when the flag is set and a range exists: the
price is tested against the 15% buffer zones; a hit re-centers on the price
with the size multiplied by 1.5, otherwise the range is unchanged. -/
lemma viewportStep_true_some (buf : List ℚ) (r : VisibleRange) (p : ℚ) :
    viewportStep ⟨buf, true, some r⟩ p =
      if p > r.vTo - (r.vTo - r.vFrom) * bufferPercent ∨
          p < r.vFrom + (r.vTo - r.vFrom) * bufferPercent then
        ⟨buf ++ [p], true,
          some ⟨p - (r.vTo - r.vFrom) * (3 / 2) / 2, p + (r.vTo - r.vFrom) * (3 / 2) / 2⟩⟩
      else ⟨buf ++ [p], true, some r⟩ := by
  rw [viewportStep]
  simp

/-- Unfolding `viewportStep` when the flag is set but no range exists
(`getVisibleRange()` returned `null`): only the buffer grows. -/
lemma viewportStep_true_none (buf : List ℚ) (p : ℚ) :
    viewportStep ⟨buf, true, none⟩ p = ⟨buf ++ [p], true, none⟩ := by
  rw [viewportStep]
  simp

/-- Unfolding `viewportStep` when the flag is still unset but the buffer is
nonempty (unreachable in a session, covered for totality): nothing but the
buffer changes. -/
lemma viewportStep_false_ne (buf : List ℚ) (rng : Option VisibleRange) (p : ℚ)
    (h : buf ≠ []) :
    viewportStep ⟨buf, false, rng⟩ p = ⟨buf ++ [p], false, rng⟩ := by
  rw [viewportStep]
  have hlen : (buf ++ [p]).length ≠ 1 := by
    simp only [List.length_append, List.length_singleton]
    have := List.length_pos.mpr h
    omega
  simp [hlen, h]

/-- Claim C4: from the start state the first price `p` sets the range to
`[p*0.98, p*1.02]` and raises `hasSetInitialRange`; the flag never falls back
(so the initial transition fires exactly once per session); with the flag set,
a price inside a 15% buffer zone of the current range re-centers it on the
price with size multiplied by 1.5 and any other price leaves it unchanged;
in particular first price 100 gives range `[98, 102]`, from `[98, 102]` price
101.9 gives `[98.9, 104.9]`, and from `[98, 102]` price 100 changes nothing. -/
theorem viewport_step_spec :
    (∀ p : ℚ, viewportStep initViewport p = ⟨[p], true, some ⟨p * 0.98, p * 1.02⟩⟩) ∧
    (∀ s p, s.hasSetInitialRange = true → (viewportStep s p).hasSetInitialRange = true) ∧
    (∀ s p r, s.hasSetInitialRange = true → s.range = some r →
      (viewportStep s p).range =
        if p > r.vTo - (r.vTo - r.vFrom) * 0.15 ∨
            p < r.vFrom + (r.vTo - r.vFrom) * 0.15 then
          some ⟨p - (r.vTo - r.vFrom) * 1.5 / 2, p + (r.vTo - r.vFrom) * 1.5 / 2⟩
        else some r) ∧
    viewportStep initViewport 100 = ⟨[100], true, some ⟨98, 102⟩⟩ ∧
    (viewportStep ⟨[100], true, some ⟨98, 102⟩⟩ 101.9).range = some ⟨98.9, 104.9⟩ ∧
    (viewportStep ⟨[100], true, some ⟨98, 102⟩⟩ 100).range = some ⟨98, 102⟩ := by
  have hfirst : ∀ p : ℚ,
      viewportStep initViewport p = ⟨[p], true, some ⟨p * 0.98, p * 1.02⟩⟩ := by
    intro p
    rw [initViewport, viewportStep_first]
    norm_num [rangePercent]
  have hsub : ∀ s p r, s.hasSetInitialRange = true → s.range = some r →
      (viewportStep s p).range =
        if p > r.vTo - (r.vTo - r.vFrom) * 0.15 ∨
            p < r.vFrom + (r.vTo - r.vFrom) * 0.15 then
          some ⟨p - (r.vTo - r.vFrom) * 1.5 / 2, p + (r.vTo - r.vFrom) * 1.5 / 2⟩
        else some r := by
    rintro ⟨buf, flag, rng⟩ p r hflag hrng
    simp only at hflag hrng
    subst hflag
    subst hrng
    rw [viewportStep_true_some]
    have hc : (p > r.vTo - (r.vTo - r.vFrom) * bufferPercent ∨
        p < r.vFrom + (r.vTo - r.vFrom) * bufferPercent) ↔
        (p > r.vTo - (r.vTo - r.vFrom) * 0.15 ∨
        p < r.vFrom + (r.vTo - r.vFrom) * 0.15) := by
      norm_num [bufferPercent]
    split_ifs with h1 h2 h2
    · simp only [Option.some.injEq, VisibleRange.mk.injEq]
      constructor <;> norm_num
    · exact absurd (hc.mp h1) h2
    · exact absurd (hc.mpr h2) h1
    · rfl
  refine ⟨hfirst, ?_, hsub, ?_, ?_, ?_⟩
  · rintro ⟨buf, flag, rng⟩ p hflag
    simp only at hflag
    subst hflag
    rcases rng with _ | r
    · rw [viewportStep_true_none]
    · rw [viewportStep_true_some]
      split_ifs <;> rfl
  · rw [hfirst]
    norm_num
  · rw [hsub ⟨[100], true, some ⟨98, 102⟩⟩ 101.9 ⟨98, 102⟩ rfl rfl]
    norm_num
  · rw [hsub ⟨[100], true, some ⟨98, 102⟩⟩ 100 ⟨98, 102⟩ rfl rfl]
    norm_num

/-- Witness for C4: the subsequent-tick rule applied at state
`[98, 102]` with price 120 (a near-top hit). -/
theorem viewport_step_spec_witness :
    (viewportStep ⟨[100], true, some ⟨98, 102⟩⟩ 120).range =
      if (120 : ℚ) > 102 - ((102 : ℚ) - 98) * 0.15 ∨
          (120 : ℚ) < 98 + ((102 : ℚ) - 98) * 0.15 then
        some ⟨120 - ((102 : ℚ) - 98) * 1.5 / 2, 120 + ((102 : ℚ) - 98) * 1.5 / 2⟩
      else some ⟨98, 102⟩ :=
  viewport_step_spec.2.2.1 ⟨[100], true, some ⟨98, 102⟩⟩ 120 ⟨98, 102⟩ rfl rfl

/-- Counterexample to claim C5 as stated: with a negative first price the
initial band is inverted (`to < from`, size `-4`), and the very next tick at
price 0 is a buffer-zone hit that multiplies the size by 1.5, shrinking it
from `-4` to `-6`; so over arbitrary reachable states and prices the range
size is not monotonically non-decreasing. -/
theorem viewport_size_monotone_counterexample :
    (viewportStep initViewport (-100)).range = some ⟨-98, -102⟩ ∧
    (viewportStep (viewportStep initViewport (-100)) 0).range = some ⟨3, -3⟩ ∧
    ((-3 : ℚ) - 3 < (-102 : ℚ) - (-98)) := by
  have h1 : viewportStep initViewport (-100) = ⟨[-100], true, some ⟨-98, -102⟩⟩ := by
    rw [initViewport, viewportStep_first]
    norm_num [rangePercent]
  have h2 : viewportStep ⟨[-100], true, some ⟨-98, -102⟩⟩ 0 =
      ⟨[-100, 0], true, some ⟨3, -3⟩⟩ := by
    rw [viewportStep_true_some]
    rw [if_pos (by norm_num [bufferPercent])]
    norm_num
  rw [h1, h2]
  norm_num

/-- Claim C5, amended: the subsequent-tick transition never decreases the
range size provided the current size is nonnegative; nonnegative size is
itself preserved by every step with a nonnegative price and holds after a
session's first transition whenever the first price is nonnegative (every
reachable state of a session of nonnegative prices therefore has nonnegative
size).  For a negative first price the size is negative and a buffer-zone hit
strictly decreases it. -/
theorem viewport_size_monotone :
    (∀ s p r r', s.hasSetInitialRange = true → s.range = some r →
      0 ≤ r.vTo - r.vFrom → (viewportStep s p).range = some r' →
      r.vTo - r.vFrom ≤ r'.vTo - r'.vFrom) ∧
    (∀ s p r', 0 ≤ p →
      (∀ r, s.range = some r → 0 ≤ r.vTo - r.vFrom) →
      (viewportStep s p).range = some r' → 0 ≤ r'.vTo - r'.vFrom) := by
  constructor
  · rintro ⟨buf, flag, rng⟩ p r r' hflag hrng h0 hstep
    simp only at hflag hrng
    subst hflag
    subst hrng
    rw [viewportStep_true_some] at hstep
    split_ifs at hstep with h
    · simp only [Option.some.injEq] at hstep
      subst hstep
      simp only
      linarith
    · simp only [Option.some.injEq] at hstep
      subst hstep
      linarith
  · rintro ⟨buf, flag, rng⟩ p r' hp hinv hstep
    cases flag
    · rcases hbuf : buf with _ | ⟨b, bs⟩
      · subst hbuf
        rw [viewportStep_first] at hstep
        simp only [Option.some.injEq] at hstep
        subst hstep
        rw [rangePercent]
        nlinarith
      · rw [viewportStep_false_ne buf rng p (by rw [hbuf]; simp)] at hstep
        exact hinv r' hstep
    · rcases rng with _ | r
      · rw [viewportStep_true_none] at hstep
        simp at hstep
      · rw [viewportStep_true_some] at hstep
        have h0 : 0 ≤ r.vTo - r.vFrom := hinv r rfl
        split_ifs at hstep with h
        · simp only [Option.some.injEq] at hstep
          subst hstep
          simp only
          linarith
        · simp only [Option.some.injEq] at hstep
          subst hstep
          exact h0

/-- Witness for the amended C5: one rescale step from `[98, 102]` at price
101.9 grows the size from 4 to 6. -/
theorem viewport_size_monotone_witness :
    ((98 : ℚ) ≤ 102 - 98 + 98) ∧
    (102 : ℚ) - 98 ≤ (viewportStep ⟨[100], true, some ⟨98, 102⟩⟩ 101.9).range.elim 0
      (fun r => r.vTo - r.vFrom) := by
  refine ⟨by norm_num, ?_⟩
  have hr : (viewportStep ⟨[100], true, some ⟨98, 102⟩⟩ (101.9 : ℚ)).range =
      some ⟨98.9, 104.9⟩ := by
    rw [viewportStep_true_some]
    rw [if_pos (by norm_num [bufferPercent])]
    norm_num
  have h := viewport_size_monotone.1 ⟨[100], true, some ⟨98, 102⟩⟩ 101.9 ⟨98, 102⟩
    ⟨98.9, 104.9⟩ rfl rfl (by norm_num) hr
  rw [hr]
  simpa using h

/-! ## Claims about the tick history -/

/-- Counterexample to claim C9 as stated: the handler appends an arriving
tick unconditionally, with no ordering check, so after delivering a tick with
`time = 5` followed by one with `time = 3` the stored sequence is
`[5, 3]`-timed and strict time-ordering is violated. -/
theorem handleNewTick_counterexample :
    handleNewTick (handleNewTick [] ⟨5, 100⟩) ⟨3, 99⟩ = [⟨5, 100⟩, ⟨3, 99⟩] ∧
    ¬ strictlyTimeOrdered [(⟨5, 100⟩ : Tick), ⟨3, 99⟩] := by
  constructor
  · rfl
  · simp [strictlyTimeOrdered, List.chain'_cons]

/-- Claim C9, amended: every delivered tick appends exactly one element to
the end of the stored sequence, leaving the existing entries untouched
(append-only); strict time-ordering is preserved by a step when the incoming
tick's time exceeds the time of the last stored tick — so it is an invariant
under in-order delivery (which the transport is assumed to provide), not for
arbitrary incoming ticks. -/
theorem handleNewTick_spec :
    (∀ (prev : List Tick) (t : Tick), handleNewTick prev t = prev ++ [t]) ∧
    (∀ (prev : List Tick) (t : Tick), strictlyTimeOrdered prev →
      (∀ l ∈ prev.getLast?, l.time < t.time) →
      strictlyTimeOrdered (handleNewTick prev t)) := by
  refine ⟨fun prev t => rfl, fun prev t hord hlast => ?_⟩
  rw [handleNewTick, strictlyTimeOrdered, List.chain'_append]
  refine ⟨hord, List.chain'_singleton t, fun x hx y hy => ?_⟩
  simp only [List.head?_cons, Option.mem_def, Option.some.injEq] at hy
  subst hy
  exact hlast x hx

/-- Witness for the amended C9: appending an in-order tick to a singleton
history keeps strict time-ordering. -/
theorem handleNewTick_spec_witness :
    strictlyTimeOrdered (handleNewTick [(⟨1, 10⟩ : Tick)] ⟨2, 11⟩) :=
  handleNewTick_spec.2 [⟨1, 10⟩] ⟨2, 11⟩
    (by simp [strictlyTimeOrdered])
    (by simp)

/-! ## Claims about the color signal and the stats panel -/

/-- Claim C8: with a defined previous-close reference the color is `upColor`
exactly when `close ≥ previousClose` (ties count as up) and `downColor`
otherwise; with no reference the step keeps the current color, so over any
sequence of ticks the series stays at its creation color — in particular for
closes `[100, 101, 99]`. -/
theorem colorSignal_spec :
    (∀ (pc : ℚ) (c : String) (close : ℚ),
      colorStep (some pc) c close = if close ≥ pc then upColor else downColor) ∧
    (∀ (c : String) (close : ℚ), colorStep none c close = c) ∧
    (∀ closes : List ℚ, runColorSignal none closes = initialSeriesColor) ∧
    runColorSignal none [100, 101, 99] = initialSeriesColor := by
  refine ⟨fun pc c close => rfl, fun c close => rfl, ?_, ?_⟩
  · intro closes
    exact foldl_colorStep_none closes initialSeriesColor
  · exact foldl_colorStep_none [100, 101, 99] initialSeriesColor

/-- Claim C10: a stats payload whose `stats` object lacks `previousClose`
makes the panel report the defined value `0` (via `?? 0`), so the app's
previous-close state becomes `some 0` instead of staying unset, and from then
on every tick with nonnegative close is colored `upColor`. -/
theorem prevCloseDefaultZero_spec :
    panelPrevClose ⟨none⟩ = 0 ∧
    statsPanelStep (some ⟨none⟩) none = some 0 ∧
    (∀ (c : String) (close : ℚ), 0 ≤ close → colorStep (some 0) c close = upColor) := by
  refine ⟨rfl, rfl, fun c close h => ?_⟩
  rw [colorStep]
  rw [if_pos h]

/-- Witness for C10 at `close = 100` starting from the creation color. -/
theorem prevCloseDefaultZero_witness :
    colorStep (some 0) initialSeriesColor 100 = upColor :=
  prevCloseDefaultZero_spec.2.2 initialSeriesColor 100 (by norm_num)

end MarketDashboard
